import Mathlib

/-!
Verification of the Mercurial hook `hooks/append_jira_commit_message.py`
(repository jeanfrancisroy/hg-coveo).

The Python module installs a wrapper around `repo.commitctx` which, on each
commit, extracts a Jira ticket reference from the branch name (or, failing
that, the active bookmark name) and appends a link to the ticket at the end
of the commit message unless that link is already present.

Strings are modelled as `List Char`.  The regular expression
`^(.*/)?[A-Z]+-\d+` (Python `re.match`, i.e. anchored at position 0) is
modelled at the ASCII level: `[A-Z]` is the ASCII uppercase range and `\d`
is modelled as the ASCII digits `0`-`9`; `.` matches any character except
the newline, exactly as in Python without `re.DOTALL`.  The backtracking
behaviour of the greedy optional group `(.*/)?` is modelled explicitly: the
engine first tries the longest prefix of non-newline characters that ends
just before a `/`, then successively shorter ones, and finally the empty
prefix (group skipped); the first alternative whose continuation matches
`[A-Z]+-\d+` wins.
-/

namespace HgJira

/-- The character class `[A-Z]` of the regex: ASCII uppercase letters. -/
def isUpperAZ (c : Char) : Bool :=
  decide ('A' ≤ c ∧ c ≤ 'Z')

/-- The character class `\d` of the regex, modelled as the ASCII digits. -/
def isDigit09 (c : Char) : Bool :=
  decide ('0' ≤ c ∧ c ≤ '9')

/-- The whitespace characters removed by Python `str.strip()` (ASCII part):
space, tab, newline, carriage return, vertical tab and form feed. -/
def isPySpace (c : Char) : Bool :=
  decide (c = ' ' ∨ c = '\t' ∨ c = '\n' ∨ c = '\r' ∨ c = '\x0b' ∨ c = '\x0c')

/-- `startsWith needle hay`: `hay` begins with `needle`. -/
def startsWith : List Char → List Char → Bool
  | [], _ => true
  | _ :: _, [] => false
  | a :: as, b :: bs => a == b && startsWith as bs

/-- Python's substring test `needle in hay`. -/
def occursIn (needle : List Char) : List Char → Bool
  | [] => needle.isEmpty
  | c :: t => startsWith needle (c :: t) || occursIn needle t

/-- Python `str.strip()`: remove leading and trailing whitespace. -/
def pyStrip (l : List Char) : List Char :=
  ((l.dropWhile isPySpace).reverse.dropWhile isPySpace).reverse

/-- `format_message` from the hook.  `jira_url_base` is the configured
`jira.url` value captured by the closure; the Python code first computes
`jira_link = "{0}/{1}".format(jira_url_base, jira)` and then either returns
the message unchanged (when the link already occurs in it) or returns
`"{0}\n\n{1}\n".format(message.strip(), jira_link)`.  The `whence` argument
of the Python function only feeds the printed notice and is omitted. -/
def format_message (jira_url_base message jira : List Char) : List Char :=
  if occursIn (jira_url_base ++ '/' :: jira) message then
    message
  else
    pyStrip message ++ '\n' :: '\n' :: (jira_url_base ++ '/' :: jira) ++ ['\n']

/-- The span of characters the regex `.` can traverse from position 0:
everything up to (excluding) the first newline. -/
def dotSpan (s : List Char) : List Char :=
  s.takeWhile (fun c => c ≠ '\n')

/-- Candidate start positions for the `[A-Z]+-\d+` part of the regex, in the
order the backtracking engine tries them: for every `/` inside the initial
newline-free span, the position just after it (rightmost slash first, since
`.*` is greedy), and finally position 0 (the optional group skipped). -/
def starts (s : List Char) : List Nat :=
  (((List.range (dotSpan s).length).filter
      (fun j => decide (s[j]? = some '/'))).reverse.map (· + 1)) ++ [0]

/-- Match `[A-Z]+-\d+` at the head of `l`: a maximal nonempty run of
uppercase letters, a literal `-`, then a maximal nonempty run of digits.
Returns the matched characters. -/
def matchTicket (l : List Char) : Option (List Char) :=
  if (l.takeWhile isUpperAZ).isEmpty then none
  else
    match l.dropWhile isUpperAZ with
    | '-' :: rest =>
      if (rest.takeWhile isDigit09).isEmpty then none
      else some (l.takeWhile isUpperAZ ++ '-' :: rest.takeWhile isDigit09)
    | _ => none

/-- Try the candidate start positions in order; on the first success return
`match.group(0)`, i.e. the consumed prefix together with the ticket. -/
def group0Aux (s : List Char) : List Nat → Option (List Char)
  | [] => none
  | j :: rest =>
    match matchTicket (s.drop j) with
    | some t => some (s.take j ++ t)
    | none => group0Aux s rest

/-- `match.group(0)` of `re.match(r"^(.*/)?[A-Z]+-\d+", s)`, or `none`. -/
def matchGroup0 (s : List Char) : Option (List Char) :=
  group0Aux s (starts s)

/-- Python `l.split('/')[-1]`: the segment after the last `/` (the whole
string when it contains no `/`). -/
def lastField (l : List Char) : List Char :=
  (l.reverse.takeWhile (fun c => c ≠ '/')).reverse

/-- `extract_project_and_id` from the hook:
`match.group(0).split('/')[-1]` when the regex matches, `''` otherwise. -/
def extract_project_and_id (s : List Char) : List Char :=
  match matchGroup0 s with
  | some g => lastField g
  | none => []

/-- The host Mercurial client state consulted by the hook:
`client.bookmarks()` returns the bookmark names together with the index of
the active one, `-1` when none is active. -/
structure Host where
  bookmarks : List (List Char)
  active : Int

/-- The name of the active bookmark, when one is active.  In the Python
code this is `bookmarks[active][0]`, guarded by `active != -1`; an active
index out of range would raise in Python but cannot be produced by the
Mercurial client, and is modelled as no active bookmark. -/
def activeBookmark (host : Host) : Option (List Char) :=
  if host.active ≠ -1 then host.bookmarks[host.active.toNat]? else none

/-- The commit message produced by `rewrite_ctx` from the branch name, the
host state and the original message: extraction is run on the branch name
first; only when it yields nothing is the active bookmark consulted. -/
def rewrite_text (base : List Char) (host : Host) (branch text : List Char) :
    List Char :=
  if extract_project_and_id branch ≠ [] then
    format_message base text (extract_project_and_id branch)
  else
    match activeBookmark host with
    | some name =>
      if extract_project_and_id name ≠ [] then
        format_message base text (extract_project_and_id name)
      else text
    | none => text

/-- The commit context: the branch name and message text the hook reads and
writes, plus all remaining fields (opaque to the hook), bundled as `extra`. -/
structure CommitCtx (α : Type) where
  branch : List Char
  text : List Char
  extra : α

/-- `rewrite_ctx` from the hook: rewrite the context's message text, then
delegate to the original `commitctx` with the context and the error handler,
returning its result. -/
def rewrite_ctx {α ε ρ : Type} (commitctx : CommitCtx α → ε → ρ)
    (base : List Char) (host : Host) (ctx : CommitCtx α) (error : ε) : ρ :=
  commitctx { ctx with text := rewrite_text base host ctx.branch ctx.text } error

/-- What the hook writes to standard output at setup time. -/
inductive OutputEvent
  | errorMissingKey (key : List Char)
  | helpText
  deriving DecidableEq

/-- The outcome of running `append_jira_commit_message`: either the process
exited (via `sys.exit`) or the commit interception was installed with the
configured base URL. -/
inductive SetupResult
  | exited (code : Nat)
  | installed (base : List Char)
  deriving DecidableEq

/-- `get_config` from the hook: scan the `[jira]` configuration entries
(triples of section, key, value) for the first entry whose key matches, and
return its value; `none` models the `MissingConfig` exception (raised both
when no entry matches and when the client command fails).  The Python
`if not cfg` test is dead code: `cfg` is a nonempty tuple, always truthy. -/
def get_config (cfgs : List (List Char × List Char × List Char))
    (key : List Char) : Option (List Char) :=
  (cfgs.find? (fun c => decide (c.2.1 = key))).map (fun c => c.2.2)

/-- The setup phase of `append_jira_commit_message`: read `jira.url`; on
success install the interception, on `MissingConfig` print the error and the
help text and exit with status 1. -/
def append_jira_commit_message
    (cfgs : List (List Char × List Char × List Char)) :
    SetupResult × List OutputEvent :=
  match get_config cfgs ("jira.url".data) with
  | some base => (SetupResult.installed base, [])
  | none =>
    (SetupResult.exited 1,
      [OutputEvent.errorMissingKey ("jira.url".data), OutputEvent.helpText])

/-- Modelled from the spec: a string matches the documented pattern
`^(<anything>/)?[A-Z]+-[0-9]+` when it is, or begins after some
slash-terminated prefix with, a nonempty run of ASCII uppercase letters, a
hyphen, and a nonempty run of ASCII digits. -/
def specTicketPattern (s : List Char) : Prop :=
  ∃ pre up ds rest,
    (s = pre ++ '/' :: (up ++ '-' :: (ds ++ rest)) ∨
      s = up ++ '-' :: (ds ++ rest)) ∧
    up ≠ [] ∧ (∀ c ∈ up, isUpperAZ c = true) ∧
    ds ≠ [] ∧ (∀ c ∈ ds, isDigit09 c = true)

/-! ### Helper lemmas -/

lemma startsWith_refl_append (l t : List Char) : startsWith l (l ++ t) = true := by
  induction l with
  | nil => rfl
  | cons a as ih => simp [startsWith, ih]

lemma occursIn_of_startsWith {n h : List Char} (hs : startsWith n h = true) :
    occursIn n h = true := by
  cases h with
  | nil =>
    cases n with
    | nil => rfl
    | cons a as => simp [startsWith] at hs
  | cons c t => simp [occursIn, hs]

lemma occursIn_middle (n pre suf : List Char) :
    occursIn n (pre ++ n ++ suf) = true := by
  induction pre with
  | nil =>
    rw [List.nil_append]
    exact occursIn_of_startsWith (startsWith_refl_append n suf)
  | cons c pre ih =>
    rw [List.cons_append, List.cons_append]
    simp only [occursIn, Bool.or_eq_true]
    right
    simpa using ih

lemma takeWhile_eq_self_of_all {p : Char → Bool} {l : List Char}
    (h : ∀ c ∈ l, p c = true) : l.takeWhile p = l :=
  List.takeWhile_eq_self_iff.mpr h

lemma takeWhile_append_stop {p : Char → Bool} {xs : List Char} {y : Char}
    (ys : List Char) (hxs : ∀ c ∈ xs, p c = true) (hy : p y = false) :
    (xs ++ y :: ys).takeWhile p = xs := by
  induction xs with
  | nil => simp [List.takeWhile_cons, hy]
  | cons a as ih =>
    have ha : p a = true := hxs a (List.mem_cons_self a as)
    rw [List.cons_append, List.takeWhile_cons, ha]
    simp only [ite_true]
    rw [ih (fun c hc => hxs c (List.mem_cons_of_mem a hc))]

lemma lastField_of_no_slash {l : List Char} (h : ∀ c ∈ l, c ≠ '/') :
    lastField l = l := by
  unfold lastField
  rw [takeWhile_eq_self_of_all, List.reverse_reverse]
  intro c hc
  simpa using h c (List.mem_reverse.mp hc)

lemma lastField_append (xs : List Char) {ys : List Char}
    (h : ∀ c ∈ ys, c ≠ '/') : lastField (xs ++ '/' :: ys) = ys := by
  unfold lastField
  rw [List.reverse_append, List.reverse_cons, List.append_assoc,
    List.singleton_append]
  rw [takeWhile_append_stop xs.reverse
    (fun c hc => by simpa using h c (List.mem_reverse.mp hc)) (by decide),
    List.reverse_reverse]

lemma matchTicket_eq_some {l t : List Char} (h : matchTicket l = some t) :
    ∃ up ds rest, l = up ++ '-' :: (ds ++ rest) ∧ t = up ++ '-' :: ds ∧
      up ≠ [] ∧ ds ≠ [] ∧ (∀ c ∈ up, isUpperAZ c = true) ∧
      (∀ c ∈ ds, isDigit09 c = true) := by
  unfold matchTicket at h
  by_cases h1 : (l.takeWhile isUpperAZ).isEmpty
  · rw [if_pos h1] at h; cases h
  · rw [if_neg h1] at h
    split at h
    · rename_i rest heq
      by_cases h2 : (rest.takeWhile isDigit09).isEmpty
      · rw [if_pos h2] at h; cases h
      · rw [if_neg h2] at h
        injection h with ht
        refine ⟨l.takeWhile isUpperAZ, rest.takeWhile isDigit09,
          rest.dropWhile isDigit09, ?_, ht.symm, ?_, ?_, ?_, ?_⟩
        · conv_lhs => rw [← List.takeWhile_append_dropWhile isUpperAZ l]
          rw [heq, List.takeWhile_append_dropWhile]
        · intro hn; rw [hn] at h1; exact h1 rfl
        · intro hn; rw [hn] at h2; exact h2 rfl
        · intro c hc; exact List.mem_takeWhile_imp hc
        · intro c hc; exact List.mem_takeWhile_imp hc
    · cases h

lemma matchTicket_no_slash {l t : List Char} (h : matchTicket l = some t) :
    ∀ c ∈ t, c ≠ '/' := by
  rcases matchTicket_eq_some h with ⟨up, ds, rest, _, rfl, _, _, hu, hd⟩
  intro c hc
  rcases List.mem_append.mp hc with hcu | hcd
  · intro heq; subst heq
    exact absurd (hu _ hcu) (by decide)
  · rcases List.mem_cons.mp hcd with rfl | hcd
    · decide
    · intro heq; subst heq
      exact absurd (hd _ hcd) (by decide)

lemma mem_starts {s : List Char} {j : Nat} (h : j ∈ starts s) :
    j = 0 ∨ ∃ m, j = m + 1 ∧ s[m]? = some '/' := by
  unfold starts at h
  rcases List.mem_append.mp h with h | h
  · right
    rcases List.mem_map.mp h with ⟨m, hm, rfl⟩
    refine ⟨m, rfl, ?_⟩
    exact of_decide_eq_true (List.mem_filter.mp (List.mem_reverse.mp hm)).2
  · left; simpa using h

lemma take_succ_of_getElem? :
    ∀ (s : List Char) (m : Nat) (c : Char), s[m]? = some c →
      s.take (m + 1) = s.take m ++ [c] := by
  intro s
  induction s with
  | nil => intro m c h; cases h
  | cons a t ih =>
    intro m c h
    cases m with
    | zero =>
      simp only [List.getElem?_cons_zero, Option.some.injEq] at h
      subst h; rfl
    | succ m =>
      simp only [List.getElem?_cons_succ] at h
      simp [List.take_succ_cons, ih m c h]

lemma eq_take_cons_drop {s : List Char} {m : Nat} {c : Char}
    (h : s[m]? = some c) : s = s.take m ++ c :: s.drop (m + 1) := by
  obtain ⟨hlt, hc⟩ := List.getElem?_eq_some_iff.mp h
  conv_lhs => rw [← List.take_append_drop m s]
  rw [List.drop_eq_getElem_cons hlt, hc]

lemma group0Aux_eq_some {s : List Char} :
    ∀ {L : List Nat} {g : List Char}, group0Aux s L = some g →
      ∃ j t, j ∈ L ∧ matchTicket (s.drop j) = some t ∧ g = s.take j ++ t := by
  intro L
  induction L with
  | nil => intro g h; cases h
  | cons j rest ih =>
    intro g h
    unfold group0Aux at h
    split at h
    · rename_i t hm
      injection h with hg
      exact ⟨j, t, List.mem_cons_self j rest, hm, hg.symm⟩
    · rcases ih h with ⟨j', t, hj, hmt, hgt⟩
      exact ⟨j', t, List.mem_cons_of_mem _ hj, hmt, hgt⟩

lemma group0Aux_isSome {s : List Char} {j : Nat} {t : List Char} :
    ∀ {L : List Nat}, j ∈ L → matchTicket (s.drop j) = some t →
      ∃ g, group0Aux s L = some g := by
  intro L
  induction L with
  | nil => intro hj _; cases hj
  | cons a rest ih =>
    intro hj hm
    cases hma : matchTicket (s.drop a) with
    | some u => exact ⟨s.take a ++ u, by simp [group0Aux, hma]⟩
    | none =>
      rcases List.mem_cons.mp hj with rfl | hj'
      · rw [hma] at hm; cases hm
      · simpa [group0Aux, hma] using ih hj' hm

lemma extract_of_group0 {s g : List Char} (h : matchGroup0 s = some g) :
    ∃ j t, j ∈ starts s ∧ matchTicket (s.drop j) = some t ∧
      extract_project_and_id s = t := by
  rcases group0Aux_eq_some h with ⟨j, t, hj, hm, hg⟩
  refine ⟨j, t, hj, hm, ?_⟩
  unfold extract_project_and_id
  rw [h, hg]
  have hns := matchTicket_no_slash hm
  rcases mem_starts hj with rfl | ⟨m, rfl, hsl⟩
  · simpa using lastField_of_no_slash hns
  · rw [take_succ_of_getElem? s m '/' hsl, List.append_assoc,
      List.singleton_append]
    exact lastField_append _ hns

lemma extract_eq_nil {s : List Char} (h : matchGroup0 s = none) :
    extract_project_and_id s = [] := by
  unfold extract_project_and_id
  rw [h]

lemma format_message_cases (b m r : List Char) :
    format_message b m r = m ∨
      (occursIn (b ++ '/' :: r) m = false ∧
        format_message b m r
          = pyStrip m ++ '\n' :: '\n' :: (b ++ '/' :: r) ++ ['\n']) := by
  unfold format_message
  by_cases h : occursIn (b ++ '/' :: r) m = true
  · left; rw [if_pos h]
  · right
    refine ⟨by simpa using h, ?_⟩
    rw [if_neg h]

/-! ### Docstring examples of `extract_project_and_id` -/

example : extract_project_and_id ("ABC-123-branch-name".data) = "ABC-123".data := by decide
example : extract_project_and_id ("feature/ABC-123-branch-name".data) = "ABC-123".data := by decide
example : extract_project_and_id ("fix/ABC-123-branch-name".data) = "ABC-123".data := by decide
example : extract_project_and_id ("branch-name".data) = [] := by decide

/-! ### Claim theorems -/

/-- Claim C1, counterexample: `format_message` strips LEADING whitespace as
well (Python `str.strip()` trims both ends), so on the message `" fix bug"`
— whose trailing whitespace trimmed form is `" fix bug"` itself — the result
is not the trimmed message followed by the link block: the leading space is
gone. -/
theorem c1_counterexample :
    occursIn ("https://j/browse/ABC-1".data) (" fix bug".data) = false ∧
    format_message ("https://j/browse".data) (" fix bug".data) ("ABC-1".data)
      = "fix bug\n\nhttps://j/browse/ABC-1\n".data ∧
    format_message ("https://j/browse".data) (" fix bug".data) ("ABC-1".data)
      ≠ " fix bug\n\nhttps://j/browse/ABC-1\n".data := by
  decide

/-- Claim C1, amended: when the link `b ++ "/" ++ r` does not occur in the
message, `format_message` returns the message with its leading and trailing
whitespace trimmed, followed by exactly one blank line, the link, and a
trailing newline; in particular formatting `"fix bug"` with reference
`"ABC-1"` and base URL `"https://j/browse"` yields
`"fix bug\n\nhttps://j/browse/ABC-1\n"`. -/
theorem c1_format_appends_link :
    (∀ m r b : List Char, occursIn (b ++ '/' :: r) m = false →
      format_message b m r
        = pyStrip m ++ '\n' :: '\n' :: (b ++ '/' :: r) ++ ['\n']) ∧
    format_message ("https://j/browse".data) ("fix bug".data) ("ABC-1".data)
      = "fix bug\n\nhttps://j/browse/ABC-1\n".data := by
  constructor
  · intro m r b h
    unfold format_message
    rw [if_neg (by simp [h])]
  · decide

/-- Claim C1, witness for the amended theorem at the concrete input of the
claim. -/
theorem c1_format_appends_link_witness :
    format_message ("https://j/browse".data) ("fix bug".data) ("ABC-1".data)
      = pyStrip ("fix bug".data)
          ++ '\n' :: '\n' :: ("https://j/browse".data ++ '/' :: "ABC-1".data)
          ++ ['\n'] :=
  c1_format_appends_link.1 ("fix bug".data) ("ABC-1".data)
    ("https://j/browse".data) (by decide)

/-- Claim C2, counterexample: on the message `"\tfix bug"` (branch
`"ABC-1"`, base URL `"https://j/browse"`) the processed message is neither
the original message nor the original message with a trailing block
appended: the leading tab is stripped, so the original message is not even
a prefix of the result. -/
theorem c2_counterexample :
    rewrite_text ("https://j/browse".data) ⟨[], -1⟩ ("ABC-1".data)
        ("\tfix bug".data) ≠ "\tfix bug".data ∧
    startsWith ("\tfix bug".data)
      (rewrite_text ("https://j/browse".data) ⟨[], -1⟩ ("ABC-1".data)
        ("\tfix bug".data)) = false := by
  decide

/-- Claim C2, amended: for every commit context processed by the
interceptor, the message after processing either is exactly the original
message, or is the original message with leading and trailing whitespace
trimmed, followed by exactly one blank line, the ticket link, and a trailing
newline; no other modification occurs. -/
theorem c2_rewrite_invariant :
    ∀ (base : List Char) (host : Host) (branch m : List Char),
      rewrite_text base host branch m = m ∨
        ∃ r, rewrite_text base host branch m
          = pyStrip m ++ '\n' :: '\n' :: (base ++ '/' :: r) ++ ['\n'] := by
  intro base host branch m
  unfold rewrite_text
  split
  · rcases format_message_cases base m (extract_project_and_id branch)
      with h | ⟨_, h⟩
    · left; exact h
    · right; exact ⟨_, h⟩
  · split
    · split
      · rename_i name _ _
        rcases format_message_cases base m (extract_project_and_id name)
          with h | ⟨_, h⟩
        · left; exact h
        · right; exact ⟨_, h⟩
      · left; rfl
    · left; rfl

/-- Claim C3: every string that does not match the documented pattern
`^(<anything>/)?[A-Z]+-[0-9]+` extracts to the empty string; in particular
`"abc-123-branch-name"` (lowercase project code) and
`"branch-name-ABC-123"` (pattern not anchored at the start) extract to the
empty string. -/
theorem c3_no_match_empty :
    (∀ s : List Char, ¬ specTicketPattern s → extract_project_and_id s = []) ∧
    extract_project_and_id ("abc-123-branch-name".data) = [] ∧
    extract_project_and_id ("branch-name-ABC-123".data) = [] := by
  refine ⟨?_, by decide, by decide⟩
  intro s hns
  cases hg : matchGroup0 s with
  | none => exact extract_eq_nil hg
  | some g =>
    exfalso
    apply hns
    rcases group0Aux_eq_some hg with ⟨j, t, hj, hm, _⟩
    rcases matchTicket_eq_some hm with ⟨up, ds, rest, hdec, _, hup, hds, hu, hd⟩
    rcases mem_starts hj with rfl | ⟨m', rfl, hsl⟩
    · exact ⟨[], up, ds, rest, Or.inr (by simpa using hdec), hup, hu, hds, hd⟩
    · have hsdec := eq_take_cons_drop hsl
      rw [hdec] at hsdec
      exact ⟨s.take m', up, ds, rest, Or.inl hsdec, hup, hu, hds, hd⟩

/-- Claim C3, witness: the empty string does not match the documented
pattern, and extraction on it yields the empty string. -/
theorem c3_no_match_empty_witness : extract_project_and_id [] = [] :=
  c3_no_match_empty.1 [] (by
    rintro ⟨pre, up, ds, rest, h | h, hup, hu, hds, hd⟩ <;> simp at h)

/-- Claim C4, counterexample: on `"ABC-1/DEF-2"`, which contains the two
candidate references `"ABC-1"` and `"DEF-2"`, extraction returns `"DEF-2"`
— the candidate after the rightmost slash, because the optional prefix
group `(.*/)` of the regex is greedy — and not the first candidate
`"ABC-1"` as the claim states. -/
theorem c4_counterexample :
    extract_project_and_id ("ABC-1/DEF-2".data) = "DEF-2".data ∧
    extract_project_and_id ("ABC-1/DEF-2".data) ≠ "ABC-1".data := by
  decide

/-- Claim C4, amended: for every input string containing at least one
ticket reference reachable by the pattern (a candidate start position just
after a slash in the initial newline-free span, or position 0), extraction
returns the ticket portion of one of the candidates — slash-delimited
prefix stripped and trailing text discarded.  The greedy prefix group picks
the rightmost viable slash, so `"ABC-1/DEF-2"` yields `"DEF-2"` (the last
candidate, not the first); `"feature/ABC-123-x"` yields `"ABC-123"` and
`"ABC-123-branch-name"` yields `"ABC-123"`. -/
theorem c4_extract_greedy :
    (∀ (s : List Char) (j : Nat) (t : List Char),
      j ∈ starts s → matchTicket (s.drop j) = some t →
        ∃ j' t', j' ∈ starts s ∧ matchTicket (s.drop j') = some t' ∧
          extract_project_and_id s = t') ∧
    extract_project_and_id ("feature/ABC-123-x".data) = "ABC-123".data ∧
    extract_project_and_id ("ABC-123-branch-name".data) = "ABC-123".data ∧
    extract_project_and_id ("ABC-1/DEF-2".data) = "DEF-2".data := by
  refine ⟨?_, by decide, by decide, by decide⟩
  intro s j t hj hm
  obtain ⟨g, hg⟩ := group0Aux_isSome hj hm
  exact extract_of_group0 hg

/-- Claim C4, witness for the general part of the amended theorem at the
input `"ABC-1"` with the candidate start position 0. -/
theorem c4_extract_greedy_witness :
    ∃ j' t', j' ∈ starts ("ABC-1".data) ∧
      matchTicket (("ABC-1".data).drop j') = some t' ∧
      extract_project_and_id ("ABC-1".data) = t' :=
  c4_extract_greedy.1 ("ABC-1".data) 0 ("ABC-1".data) (by decide) (by decide)

/-- Claim C5: whenever the candidate link `b ++ "/" ++ r` occurs verbatim
anywhere in the message, `format_message` returns the message completely
unchanged. -/
theorem c5_unchanged_if_link_present :
    ∀ (b m r : List Char), occursIn (b ++ '/' :: r) m = true →
      format_message b m r = m := by
  intro b m r h
  unfold format_message
  rw [if_pos h]

/-- Claim C5, witness: a message already containing the link is returned
unchanged. -/
theorem c5_unchanged_if_link_present_witness :
    format_message ("https://j/browse".data)
      ("x https://j/browse/ABC-1 y".data) ("ABC-1".data)
      = "x https://j/browse/ABC-1 y".data :=
  c5_unchanged_if_link_present ("https://j/browse".data)
    ("x https://j/browse/ABC-1 y".data) ("ABC-1".data) (by decide)

/-- Claim C6: the branch name is examined first — whenever extraction on
the branch name succeeds the result is used, whatever the bookmark state —
and when neither the branch name nor an active bookmark name yields a
reference, the message is left untouched and the commit is delegated with
the unmodified context. -/
theorem c6_branch_first :
    ∀ (base : List Char) (host : Host) (α ε ρ : Type)
      (commitctx : CommitCtx α → ε → ρ) (ctx : CommitCtx α) (err : ε),
      (extract_project_and_id ctx.branch ≠ [] →
        rewrite_ctx commitctx base host ctx err
          = commitctx
              ⟨ctx.branch,
                format_message base ctx.text
                  (extract_project_and_id ctx.branch),
                ctx.extra⟩ err) ∧
      (extract_project_and_id ctx.branch = [] →
        (∀ name, activeBookmark host = some name →
          extract_project_and_id name = []) →
        rewrite_ctx commitctx base host ctx err = commitctx ctx err) := by
  intro base host α ε ρ commitctx ctx err
  constructor
  · intro h
    unfold rewrite_ctx rewrite_text
    rw [if_pos h]
  · intro h hbk
    unfold rewrite_ctx rewrite_text
    rw [if_neg (fun hn => hn h)]
    cases hab : activeBookmark host with
    | none => simp only [hab]
    | some name =>
      simp only [hab]
      rw [if_neg (fun hn => hn (hbk name hab))]

/-- Claim C6, witness: with branch `"ABC-9"` and an active bookmark
`"XYZ-7"` the branch-derived reference is used; with branch `"plain"` and
no active bookmark the message is delegated untouched. -/
theorem c6_branch_first_witness :
    rewrite_ctx (fun (c : CommitCtx Unit) (_ : Unit) => c.text)
        ("https://j".data) ⟨["XYZ-7".data], 0⟩
        ⟨"ABC-9".data, "msg".data, ()⟩ ()
      = format_message ("https://j".data) ("msg".data)
          (extract_project_and_id ("ABC-9".data)) ∧
    rewrite_ctx (fun (c : CommitCtx Unit) (_ : Unit) => c.text)
        ("https://j".data) ⟨[], -1⟩ ⟨"plain".data, "msg".data, ()⟩ ()
      = "msg".data := by
  constructor
  · exact (c6_branch_first ("https://j".data) ⟨["XYZ-7".data], 0⟩
      Unit Unit (List Char) (fun c _ => c.text)
      ⟨"ABC-9".data, "msg".data, ()⟩ ()).1 (by decide)
  · exact (c6_branch_first ("https://j".data) ⟨[], -1⟩
      Unit Unit (List Char) (fun c _ => c.text)
      ⟨"plain".data, "msg".data, ()⟩ ()).2 (by decide)
      (fun name h => by simp [activeBookmark] at h)

/-- Claim C7: when no configuration entry carries the key `jira.url`, the
setup phase prints the missing-key error followed by the usage help text
and exits with status 1; the result is `exited`, not `installed`, so no
commit interception is installed. -/
theorem c7_missing_config_exits :
    ∀ cfgs : List (List Char × List Char × List Char),
      (∀ c ∈ cfgs, c.2.1 ≠ "jira.url".data) →
      append_jira_commit_message cfgs
        = (SetupResult.exited 1,
            [OutputEvent.errorMissingKey ("jira.url".data),
              OutputEvent.helpText]) := by
  intro cfgs h
  unfold append_jira_commit_message get_config
  have hf : cfgs.find? (fun c => decide (c.2.1 = "jira.url".data)) = none :=
    List.find?_eq_none.mpr (fun x hx => by simpa using h x hx)
  rw [hf]
  rfl

/-- Claim C7, witness: an empty configuration has no `jira.url` entry, and
setup exits with status 1 after printing the error and the help text. -/
theorem c7_missing_config_exits_witness :
    append_jira_commit_message []
      = (SetupResult.exited 1,
          [OutputEvent.errorMissingKey ("jira.url".data),
            OutputEvent.helpText]) :=
  c7_missing_config_exits [] (by simp)

/-- Claim C8: the interceptor modifies only the `text` field of the commit
context — the branch field and all remaining fields (`extra`) are passed to
the original commit operation unchanged, the error-handler argument is
forwarded as is, and the result of the original commit operation is
returned verbatim. -/
theorem c8_frame :
    ∀ (α ε ρ : Type) (commitctx : CommitCtx α → ε → ρ) (base : List Char)
      (host : Host) (ctx : CommitCtx α) (error : ε),
      ∃ t, rewrite_ctx commitctx base host ctx error
        = commitctx ⟨ctx.branch, t, ctx.extra⟩ error :=
  fun _ _ _ _commitctx base host ctx _error =>
    ⟨rewrite_text base host ctx.branch ctx.text, rfl⟩

/-- Claim C9: extraction is total (it is a Lean function, defined on every
string and returning a string), and every nonempty result has the exact
form `PROJECT-ID` — a nonempty run of uppercase ASCII letters, a hyphen, a
nonempty run of ASCII digits — and contains no slash. -/
theorem c9_extract_total_shape :
    ∀ s : List Char,
      extract_project_and_id s = [] ∨
        ∃ up ds, up ≠ [] ∧ ds ≠ [] ∧ (∀ c ∈ up, isUpperAZ c = true) ∧
          (∀ c ∈ ds, isDigit09 c = true) ∧
          extract_project_and_id s = up ++ '-' :: ds ∧
          ∀ c ∈ extract_project_and_id s, c ≠ '/' := by
  intro s
  cases hg : matchGroup0 s with
  | none => left; exact extract_eq_nil hg
  | some g =>
    right
    rcases extract_of_group0 hg with ⟨j, t, hj, hm, he⟩
    rcases matchTicket_eq_some hm with ⟨up, ds, rest, _, rfl, hup, hds, hu, hd⟩
    refine ⟨up, ds, hup, hds, hu, hd, he, ?_⟩
    rw [he]
    exact matchTicket_no_slash hm

/-- Claim C10: `format_message` is idempotent — applying it twice yields
the same result as applying it once, because a freshly appended result
contains the link verbatim and is therefore returned unchanged by the
second application. -/
theorem c10_format_idempotent :
    ∀ b m r : List Char,
      format_message b (format_message b m r) r = format_message b m r := by
  intro b m r
  rcases format_message_cases b m r with h | ⟨_, h⟩
  · rw [h]
    exact h
  · rw [h]
    unfold format_message
    rw [if_pos (by
      rw [show pyStrip m ++ '\n' :: '\n' :: (b ++ '/' :: r) ++ ['\n']
          = (pyStrip m ++ ['\n', '\n']) ++ (b ++ '/' :: r) ++ ['\n'] by simp]
      exact occursIn_middle (b ++ '/' :: r) (pyStrip m ++ ['\n', '\n']) ['\n'])]

end HgJira
